import Mathlib

/-
Verification development for the electron-playwright helper library.

The TypeScript sources are shallowly embedded: strings are lists of
characters, filesystem paths are a flag for absoluteness plus a list of
path segments, and the ambient filesystem (readdirSync, statSync,
readFileSync + JSON.parse, asar extraction) is an explicit oracle record
passed to the embedded functions.
-/

/-- Decidable equality of Except results, needed to evaluate the embedded
functions inside decide. -/
instance exceptDecEq [DecidableEq ε] [DecidableEq α] : DecidableEq (Except ε α) :=
  fun a b =>
    match a, b with
    | .ok x, .ok y =>
      if h : x = y then .isTrue (by rw [h]) else .isFalse (by intro hc; cases hc; exact h rfl)
    | .error x, .error y =>
      if h : x = y then .isTrue (by rw [h]) else .isFalse (by intro hc; cases hc; exact h rfl)
    | .ok _, .error _ => .isFalse (by intro hc; cases hc)
    | .error _, .ok _ => .isFalse (by intro hc; cases hc)

namespace EPH

/-- Strings of the embedded programs, as lists of characters so that all
operations reduce in the kernel. -/
abbrev Str := List Char

/-- Conversion from Lean string literals. -/
def str (s : String) : Str := s.data

/-- Boolean prefix test on character lists. -/
def isPrefB : Str → Str → Bool
  | [], _ => true
  | _ :: _, [] => false
  | c :: cs, d :: ds => c == d && isPrefB cs ds

/-- JavaScript String.prototype.includes: substring containment. -/
def substrB (pat : Str) : Str → Bool
  | [] => isPrefB pat []
  | c :: cs => isPrefB pat (c :: cs) || substrB pat cs

/-- JavaScript String.prototype.endsWith. -/
def endsWithB (s suf : Str) : Bool := isPrefB suf.reverse s.reverse

/-- ASCII lower-casing of one character, the fragment of
toLowerCase/toLocaleLowerCase exercised by the directory names involved. -/
def charLower (c : Char) : Char :=
  if 65 ≤ c.toNat && c.toNat ≤ 90 then Char.ofNat (c.toNat + 32) else c

/-- JavaScript String.prototype.toLowerCase (ASCII fragment). -/
def lowerB (s : Str) : Str := s.map charLower

/-- Accumulator for splitting a string at a separator character. -/
def splitChAux (sep : Char) : Str → Str → List Str
  | [], acc => [acc.reverse]
  | c :: cs, acc =>
    if c == sep then acc.reverse :: splitChAux sep cs []
    else splitChAux sep cs (c :: acc)

/-- JavaScript String.prototype.split with a one-character separator. -/
def splitChB (sep : Char) (s : Str) : List Str := splitChAux sep s []

/-- Filesystem paths: whether the path is absolute, and its segments.
A node path string is abstracted as the pair of its leading-slash flag
and its slash-separated components. -/
structure FsPath where
  abs : Bool
  segs : List Str
deriving DecidableEq, Repr

/-- Node path.join of a path with one further component string; the
component may itself contain slashes, which path.join normalises away. -/
def joinStr (p : FsPath) (s : Str) : FsPath :=
  { p with segs := p.segs ++ (splitChB '/' s).filter (fun seg => seg ≠ []) }

/-- Node path.dirname: drop the last segment. -/
def dirname (p : FsPath) : FsPath := { p with segs := p.segs.dropLast }

/-- Node path.basename: the last segment (empty for a bare root). -/
def basename (p : FsPath) : Str := (p.segs.getLast?).getD []

/-- Whether the rendered path string ends with the given suffix; for a
slash-free suffix this is a suffix test on the last segment. -/
def pathEndsWith (p : FsPath) (suf : Str) : Bool := endsWithB (basename p) suf

/-- OS platforms distinguished by parseElectronApp. -/
inductive Platform where
  | darwin
  | win32
  | linux
deriving DecidableEq, Repr

/-- CPU architectures of the Architecture union type. -/
inductive Arch where
  | x32
  | x64
  | arm64
deriving DecidableEq, Repr

/-- Whether the lowercased base name matches the Windows token test of
parseElectronApp: baseName.includes('win'). -/
def hasWinTok (b : Str) : Bool := substrB (str "win") b

/-- Whether the lowercased base name matches the Linux token test of
parseElectronApp: linux, ubuntu or debian as substrings. -/
def hasLinuxTok (b : Str) : Bool :=
  substrB (str "linux") b || substrB (str "ubuntu") b || substrB (str "debian") b

/-- Whether the lowercased base name matches the macOS token test of
parseElectronApp: darwin, mac or osx as substrings. -/
def hasMacTok (b : Str) : Bool :=
  substrB (str "darwin") b || substrB (str "mac") b || substrB (str "osx") b

/-- Platform inference from the lowercased base name, exactly as the three
successive non-exclusive if statements of parseElectronApp: the Windows
test runs first, then the Linux test, then the macOS test, each
overwriting the previous answer when it matches. -/
def inferPlatformTokens (b : Str) : Option Platform :=
  let p1 := if hasWinTok b then some Platform.win32 else none
  let p2 := if hasLinuxTok b then some Platform.linux else p1
  if hasMacTok b then some Platform.darwin else p2

/-- Architecture inference from the lowercased base name, as the three
successive non-exclusive if statements of parseElectronApp (x32/i386,
then x64, then arm64, later matches overwriting). The unset case is
None, matching the undefined arch of the returned object. -/
def inferArch (b : Str) : Option Arch :=
  let a1 := if substrB (str "x32") b || substrB (str "i386") b then some Arch.x32 else none
  let a2 := if substrB (str "x64") b then some Arch.x64 else a1
  if substrB (str "arm64") b then some Arch.arm64 else a2

/-- First phase of parseElectronApp: the two suffix tests. A build path
ending in .app is replaced by its parent with platform darwin; the
(possibly already replaced) path ending in .exe is replaced by its
parent with platform win32. Returns the effective build directory and
the platform decided so far. -/
def suffixStep (p : FsPath) : FsPath × Option Platform :=
  let s1 := if pathEndsWith p (str ".app")
    then (dirname p, some Platform.darwin)
    else (p, (none : Option Platform))
  if pathEndsWith s1.1 (str ".exe")
    then (dirname s1.1, some Platform.win32)
    else s1

/-- Full platform classification of parseElectronApp: suffix tests first;
only if neither decided the platform is the lowercased base name of the
effective directory run through the token tests. -/
def classify (p : FsPath) : FsPath × Option Platform :=
  let s := suffixStep p
  match s.2 with
  | some pl => (s.1, some pl)
  | none => (s.1, inferPlatformTokens (lowerB (basename s.1)))

/-- Manifest of an application (package.json after JSON.parse), restricted
to the two fields the library reads. -/
structure Manifest where
  main : Str
  name : Str
deriving DecidableEq, Repr

/-- Filesystem oracle for parseElectronApp. readdir models readdirSync
(None when the directory does not exist), readManifest models
readFileSync of a package.json followed by JSON.parse, and asarManifest
models ASAR.extractFile(archive, 'package.json') followed by JSON.parse. -/
structure Fsys where
  readdir : FsPath → Option (List Str)
  readManifest : FsPath → Option Manifest
  asarManifest : FsPath → Option Manifest

/-- Errors of parseElectronApp. unsupportedPlatform records the base name
of the error message Platform not found in directory name; notSupported
records the platform of Platform not supported; malformed stands for the
runtime failures (ENOENT, TypeError on undefined, JSON/asar failures)
that a structurally deficient bundle produces. -/
inductive ParseError where
  | unsupportedPlatform (base : Str)
  | notSupported (p : Platform)
  | malformed
deriving DecidableEq, Repr

/-- Result record of parseElectronApp (ElectronAppInfo). arch is optional
because the TypeScript leaves the field undefined when no token matches. -/
structure ElectronAppInfo where
  executable : FsPath
  main : FsPath
  name : Str
  resourcesDir : FsPath
  asar : Bool
  platform : Platform
  arch : Option Arch
deriving DecidableEq, Repr

/-- Lifts a possibly missing value to the parse monad, modelling the crash
of the TypeScript on missing structure. -/
def ofOpt : Option α → Except ParseError α
  | none => .error .malformed
  | some a => .ok a

/-- Shared tail of the darwin and win32 branches of parseElectronApp: list
the resources directory, decide asar by membership of app.asar, then read
the manifest from the archive or from app/package.json and join the entry
path. Returns the asar flag, the main path and the manifest. -/
def resolveManifest (fs : Fsys) (resourcesDir : FsPath) :
    Except ParseError (Bool × FsPath × Manifest) := do
  let resourcesList ← ofOpt (fs.readdir resourcesDir)
  let asar := resourcesList.contains (str "app.asar")
  if asar then
    let asarPath := joinStr resourcesDir (str "app.asar")
    let pj ← ofOpt (fs.asarManifest asarPath)
    .ok (true, joinStr asarPath pj.main, pj)
  else
    let appDir := joinStr resourcesDir (str "app")
    let pj ← ofOpt (fs.readManifest (joinStr appDir (str "package.json")))
    .ok (false, joinStr appDir pj.main, pj)

/-- Shallow embedding of parseElectronApp. -/
def parseElectronApp (fs : Fsys) (p : FsPath) : Except ParseError ElectronAppInfo :=
  let c := classify p
  let buildDir := c.1
  let base := lowerB (basename buildDir)
  match c.2 with
  | none => .error (.unsupportedPlatform base)
  | some plat =>
    let arch := inferArch base
    match plat with
    | .darwin => do
      let list ← ofOpt (fs.readdir buildDir)
      let appBundle ← ofOpt (list.find? (fun f => endsWithB f (str ".app")))
      let appDir := joinStr (joinStr (joinStr buildDir appBundle) (str "Contents")) (str "MacOS")
      let macList ← ofOpt (fs.readdir appDir)
      let appName ← ofOpt macList.head?
      let executable := joinStr appDir appName
      let resourcesDir := joinStr (joinStr (joinStr buildDir appBundle) (str "Contents")) (str "Resources")
      let r ← resolveManifest fs resourcesDir
      .ok ⟨executable, r.2.1, r.2.2.name, resourcesDir, r.1, .darwin, arch⟩
    | .win32 => do
      let list ← ofOpt (fs.readdir buildDir)
      let exe ← ofOpt (list.find? (fun f => endsWithB f (str ".exe")))
      let executable := joinStr buildDir exe
      let resourcesDir := joinStr buildDir (str "resources")
      let r ← resolveManifest fs resourcesDir
      .ok ⟨executable, r.2.1, r.2.2.name, resourcesDir, r.1, .win32, arch⟩
    | .linux => .error (.notSupported .linux)

/-- One entry of the out directory as findLatestBuild sees it: its name and
the two facts statSync provides that the function consults. -/
structure DirEntry where
  name : Str
  isDir : Bool
  mtimeMs : Nat
deriving DecidableEq, Repr

/-- Platform vocabulary of findLatestBuild, in source order. -/
def platformsList : List Str :=
  [str "win32", str "win", str "windows", str "darwin", str "mac",
   str "macos", str "osx", str "linux", str "ubuntu"]

/-- Validity test of findLatestBuild on a file name: the lowercased name,
split at dashes, has some part equal to a platform token. -/
def isBuildName (n : Str) : Bool :=
  (splitChB '-' (lowerB n)).any (fun part => platformsList.contains part)

/-- Insertion into a list sorted by decreasing mtimeMs, going strictly
before the first smaller element; together with a left fold this is a
stable descending sort, the behaviour of Array.prototype.sort with the
comparator (a, b) => b.time - a.time. -/
def insertDesc (x : DirEntry) : List DirEntry → List DirEntry
  | [] => [x]
  | y :: ys => if x.mtimeMs > y.mtimeMs then x :: y :: ys else y :: insertDesc x ys

/-- Stable sort by decreasing mtimeMs. -/
def sortDesc (l : List DirEntry) : List DirEntry :=
  l.foldl (fun acc x => insertDesc x acc) []

/-- Errors of findLatestBuild: the explicit No build found Error of the
source, and the ENOENT that readdirSync raises when the out directory
does not exist. -/
inductive BuildError where
  | noBuildFound
  | fsError
deriving DecidableEq, Repr

/-- Validity predicate of findLatestBuild on a directory entry. -/
def isValidBuild (e : DirEntry) : Bool := e.isDir && isBuildName e.name

/-- Shallow embedding of findLatestBuild. The ambient filesystem state is
passed as the listing of the out directory (None when it does not
exist). Entries failing the validity test become undefined in the
mapped array, which Array.prototype.sort moves behind all defined
entries without consulting the comparator, so the source is equivalent
to filtering first; the defined entries are stably sorted by decreasing
mtimeMs and the first is taken. -/
def findLatestBuild (outDir : FsPath) (listing : Option (List DirEntry)) :
    Except BuildError FsPath :=
  match listing with
  | none => .error .fsError
  | some entries =>
    let valid := entries.filter isValidBuild
    match (sortDesc valid).head? with
    | none => .error .noBuildFound
    | some e => .ok (joinStr outDir e.name)

/-- Strict lexicographic order on embedded strings (by character code). -/
def strLtB : Str → Str → Bool
  | [], [] => false
  | [], _ :: _ => true
  | _ :: _, [] => false
  | c :: cs, d :: ds =>
    if c.toNat < d.toNat then true
    else if d.toNat < c.toNat then false
    else strLtB cs ds

/-- Modelled from the spec: the Build Locator choice rule as the spec
words it, "among valid candidates, select the one with the greatest
directory modification timestamp; ties broken by lexicographically last
name". Used only to compare against the embedded findLatestBuild. -/
def specLatestChoice (entries : List DirEntry) : Option DirEntry :=
  (entries.filter isValidBuild).foldl
    (fun acc x =>
      match acc with
      | none => some x
      | some y =>
        if x.mtimeMs > y.mtimeMs || (x.mtimeMs == y.mtimeMs && strLtB y.name x.name)
        then some x else some y)
    none

/-- First entry with the greatest mtimeMs, by a left fold that replaces
the current best only on a strictly larger key. -/
def firstMaxAux : Option DirEntry → List DirEntry → Option DirEntry
  | acc, [] => acc
  | acc, x :: xs =>
    firstMaxAux
      (match acc with
       | none => some x
       | some y => if x.mtimeMs > y.mtimeMs then some x else some y) xs

/-- First entry of a list achieving the maximal mtimeMs. -/
def firstMax (l : List DirEntry) : Option DirEntry := firstMaxAux none l

/-- Outcome of the polling loop of electronWaitForFunction, recording how
many times the probe was evaluated and how many milliseconds of
setTimeout suspension happened before returning. -/
inductive WaitOutcome (ε : Type) where
  | done (evals : Nat) (sleptMs : Nat)
  | failed (e : ε) (evals : Nat) (sleptMs : Nat)
  | outOfFuel
deriving DecidableEq, Repr

/-- Shallow embedding of the loop of electronWaitForFunction. The probe is
the k-indexed outcome of the k-th electronApp.evaluate round trip (an
error models a rejected evaluation). The loop itself is unbounded, so it
is run on explicit fuel; outOfFuel marks exhaustion and never occurs for
sufficient fuel. After a false evaluation the task suspends 100 ms
before the next one. -/
def electronWaitForFunction (probe : Nat → Except ε Bool) : Nat → Nat → WaitOutcome ε
  | 0, _ => .outOfFuel
  | fuel + 1, k =>
    match probe k with
    | .error e => .failed e (k + 1) (100 * k)
    | .ok true => .done (k + 1) (100 * k)
    | .ok false => electronWaitForFunction probe fuel (k + 1)

/-- Entry point of the polling synchronizer: start at evaluation 0. -/
def waitForCondition (probe : Nat → Except ε Bool) (fuel : Nat) : WaitOutcome ε :=
  electronWaitForFunction probe fuel 0

/-- Menu tree as the snippet of clickMenuItemById sees it: each item has
an id, its other attributes as key/value pairs, and a submenu. -/
inductive MenuItem where
  | node (id : Str) (attrs : List (Str × Str)) (submenu : List MenuItem)

/-- Identifier of a menu item. -/
def MenuItem.mid : MenuItem → Str
  | .node i _ _ => i

/-- Attributes of a menu item. -/
def MenuItem.attributes : MenuItem → List (Str × Str)
  | .node _ a _ => a

/-- Attribute lookup, modelling the JavaScript property access
menuItem[attribute] (None plays undefined). -/
def lookupAttr (attr : Str) : List (Str × Str) → Option Str
  | [] => none
  | (k, v) :: rest => if k == attr then some v else lookupAttr attr rest

mutual
/-- Modelled from the spec: Menu.getMenuItemById of the Electron main
process (not part of this repository), which finds the item with the
given identifier in the menu tree: search one item, then its submenu. -/
def findInItem (midVal : Str) : MenuItem → Option MenuItem
  | .node i attrs sub =>
    if i == midVal then some (.node i attrs sub) else findInList midVal sub

/-- Depth-first search of a forest of menu items for an identifier. -/
def findInList (midVal : Str) : List MenuItem → Option MenuItem
  | [] => none
  | m :: ms =>
    match findInItem midVal m with
    | some r => some r
    | none => findInList midVal ms
end

/-- Error message built by the evaluated snippets of clickMenuItemById
and getMenuItemAttribute. -/
def menuNotFoundMsg (midVal : Str) : Str :=
  str "Menu item with id " ++ midVal ++ str " not found"

/-- Shallow embedding of the snippet of clickMenuItemById: look the item
up; if found return the activation events its click() produces (one
activation of that item), else throw the not-found error. -/
def clickMenuItemById (menu : List MenuItem) (midVal : Str) : Except Str (List Str) :=
  match findInList midVal menu with
  | some item => .ok [item.mid]
  | none => .error (menuNotFoundMsg midVal)

/-- Shallow embedding of the snippet of getMenuItemAttribute: the same
lookup; if found return the attribute value, else throw the same error. -/
def getMenuItemAttribute (menu : List MenuItem) (midVal attr : Str) :
    Except Str (Option Str) :=
  match findInList midVal menu with
  | some item => .ok (lookupAttr attr item.attributes)
  | none => .error (menuNotFoundMsg midVal)

/-- Modelled from the spec: Node's EventEmitter.emit as ipcMain.emit uses
it (Electron/Node, not part of this repository): invoke every listener
registered for the message, in registration order, each observing the
argument list, and return whether any listener was registered.
Listeners are opaque handler identifiers; the first component of the
result is the list of performed handler invocations. -/
def ipcMainEmit (listeners : List (Str × Nat)) (message : Str) (args : List Str) :
    List (Nat × List Str) × Bool :=
  let hs := (listeners.filter (fun l => l.1 == message)).map (fun l => l.2)
  (hs.map (fun h => (h, args)), !hs.isEmpty)

/-- Handlers registered for a message, in registration order. -/
def handlersFor (listeners : List (Str × Nat)) (message : Str) : List Nat :=
  (listeners.filter (fun l => l.1 == message)).map (fun l => l.2)

/-- Modelled from the spec: platform inference by token sets "with first
match winning", the sets taken in the order the source tests them
(Windows, Linux, macOS). Used only to compare the spec's wording with
the embedded inference. -/
def specInferPlatformFirstMatch (b : Str) : Option Platform :=
  if hasWinTok b then some Platform.win32
  else if hasLinuxTok b then some Platform.linux
  else if hasMacTok b then some Platform.darwin
  else none

/-- Filesystem oracle with nothing on disk. -/
def emptyFsys : Fsys := ⟨fun _ => none, fun _ => none, fun _ => none⟩

/-- Manifest fixture used by the concrete bundles below. -/
def pjEx : Manifest := ⟨str "index.js", str "myapp"⟩

/-- Windows build directory fixture (absolute). -/
def winDirEx : FsPath := ⟨true, [str "out", str "myapp-win32-x64"]⟩

/-- Resources directory of the Windows fixture. -/
def winResEx : FsPath := joinStr winDirEx (str "resources")

/-- Archive path of the Windows fixture. -/
def winAsarEx : FsPath := joinStr winResEx (str "app.asar")

/-- Packed Windows bundle: an exe and a resources directory holding
app.asar whose manifest is pjEx. -/
def winFsEx : Fsys where
  readdir := fun p =>
    if p = winDirEx then some [str "myapp.exe", str "resources"]
    else if p = winResEx then some [str "app.asar"]
    else none
  readManifest := fun _ => none
  asarManifest := fun p => if p = winAsarEx then some pjEx else none

/-- Expected parse of the packed Windows fixture. -/
def winInfoEx : ElectronAppInfo :=
  ⟨joinStr winDirEx (str "myapp.exe"), joinStr winAsarEx (str "index.js"),
   str "myapp", winResEx, true, Platform.win32, some Arch.x64⟩

/-- macOS build directory fixture (absolute). -/
def macDirEx : FsPath := ⟨true, [str "out", str "myapp-darwin-arm64"]⟩

/-- App bundle inside the macOS fixture. -/
def macBundleEx : FsPath := joinStr macDirEx (str "myapp.app")

/-- Contents directory of the macOS fixture. -/
def macContentsEx : FsPath := joinStr macBundleEx (str "Contents")

/-- MacOS executable directory of the fixture. -/
def macExeDirEx : FsPath := joinStr macContentsEx (str "MacOS")

/-- Resources directory of the macOS fixture. -/
def macResEx : FsPath := joinStr macContentsEx (str "Resources")

/-- Unpacked macOS bundle: app bundle, executable, and a loose app
directory with a package.json equal to pjEx. -/
def macFsEx : Fsys where
  readdir := fun p =>
    if p = macDirEx then some [str "myapp.app"]
    else if p = macExeDirEx then some [str "myapp"]
    else if p = macResEx then some [str "app"]
    else none
  readManifest := fun p =>
    if p = joinStr (joinStr macResEx (str "app")) (str "package.json") then some pjEx
    else none
  asarManifest := fun _ => none

/-- Expected parse of the unpacked macOS fixture. -/
def macInfoEx : ElectronAppInfo :=
  ⟨joinStr macExeDirEx (str "myapp"), joinStr (joinStr macResEx (str "app")) (str "index.js"),
   str "myapp", macResEx, false, Platform.darwin, some Arch.arm64⟩

/-- The Windows fixture again, but rooted at a relative path. -/
def relDirEx : FsPath := ⟨false, [str "myapp-win32-x64"]⟩

/-- Resources directory of the relative fixture. -/
def relResEx : FsPath := joinStr relDirEx (str "resources")

/-- Archive path of the relative fixture. -/
def relAsarEx : FsPath := joinStr relResEx (str "app.asar")

/-- Packed bundle identical in shape to winFsEx but under a relative
build directory. -/
def relFsEx : Fsys where
  readdir := fun p =>
    if p = relDirEx then some [str "myapp.exe", str "resources"]
    else if p = relResEx then some [str "app.asar"]
    else none
  readManifest := fun _ => none
  asarManifest := fun p => if p = relAsarEx then some pjEx else none

/-- Expected parse of the relative fixture. -/
def relInfoEx : ElectronAppInfo :=
  ⟨joinStr relDirEx (str "myapp.exe"), joinStr relAsarEx (str "index.js"),
   str "myapp", relResEx, true, Platform.win32, some Arch.x64⟩

/-- Out directory fixture for the Build Locator claims. -/
def outDirEx : FsPath := ⟨true, [str "proj", str "out"]⟩

/-- Valid build entry, listed first, mtime 5. -/
def entryA : DirEntry := ⟨str "a-linux", true, 5⟩

/-- Valid build entry, listed second, same mtime 5. -/
def entryB : DirEntry := ⟨str "b-linux", true, 5⟩

/-- Entry without a platform token, newer than the valid ones. -/
def entryJunk : DirEntry := ⟨str "junk", true, 9⟩

/-- Probe that is false before evaluation index t and true from it on. -/
def probeTrueAt (t : Nat) : Nat → Except Nat Bool := fun k => .ok (decide (t ≤ k))

/-- Probe that is false at evaluation 0 and rejects at evaluation 1. -/
def probeErrAt1 : Nat → Except Nat Bool := fun k => if k = 1 then .error 9 else .ok false

/-- Probe that rejects immediately at evaluation 0. -/
def probeErrAt0 : Nat → Except Nat Bool := fun _ => .error 7

/-- Menu fixture: a submenu item with an attribute, and a sibling. -/
def menuEx : List MenuItem :=
  [.node (str "file") [] [.node (str "open") [(str "enabled", str "true")] []],
   .node (str "edit") [] []]

/-- Listener table fixture: two handlers for msg, one for other. -/
def listenersEx : List (Str × Nat) := [(str "msg", 1), (str "other", 2), (str "msg", 3)]

/-- Boolean prefix test agrees with the prefix relation. -/
theorem isPrefB_iff (a b : Str) : isPrefB a b = true ↔ a <+: b := by
  induction a generalizing b with
  | nil => simp [isPrefB]
  | cons c cs ih =>
    cases b with
    | nil => simp [isPrefB]
    | cons d ds => simp [isPrefB, List.cons_prefix_cons, ih]

/-- Boolean substring test agrees with the infix relation. -/
theorem substrB_iff (pat l : Str) : substrB pat l = true ↔ pat <:+: l := by
  induction l with
  | nil => simp [substrB, isPrefB_iff]
  | cons c cs ih => simp [substrB, isPrefB_iff, ih, List.infix_cons_iff]

/-- A string containing darwin also passes the win substring test. -/
theorem substr_win_of_darwin (b : Str) (h : substrB (str "darwin") b = true) :
    substrB (str "win") b = true := by
  rw [substrB_iff] at h ⊢
  exact List.IsInfix.trans ⟨str "dar", [], rfl⟩ h

/-- Suffix phase on a path ending in .app whose parent does not end in
.exe: the parent directory and platform darwin. -/
theorem classify_app (p : FsPath) (h1 : pathEndsWith p (str ".app") = true)
    (h2 : pathEndsWith (dirname p) (str ".exe") = false) :
    classify p = (dirname p, some Platform.darwin) := by
  simp [classify, suffixStep, h1, h2]

/-- Suffix phase on a path ending in .exe (and not .app): the parent
directory and platform win32. -/
theorem classify_exe (p : FsPath) (h1 : pathEndsWith p (str ".app") = false)
    (h2 : pathEndsWith p (str ".exe") = true) :
    classify p = (dirname p, some Platform.win32) := by
  simp [classify, suffixStep, h1, h2]

/-- Without either suffix the classification falls through to the token
tests on the lowercased base name. -/
theorem classify_tokens (p : FsPath) (h1 : pathEndsWith p (str ".app") = false)
    (h2 : pathEndsWith p (str ".exe") = false) :
    classify p = (p, inferPlatformTokens (lowerB (basename p))) := by
  simp [classify, suffixStep, h1, h2]

/-- The macOS test is checked last, so it wins whenever it matches. -/
theorem inferPlatformTokens_mac (b : Str) (h : hasMacTok b = true) :
    inferPlatformTokens b = some Platform.darwin := by
  simp [inferPlatformTokens, h]

/-- The Linux test overrides the Windows test and yields linux when the
later macOS test does not match. -/
theorem inferPlatformTokens_linux (b : Str) (hm : hasMacTok b = false)
    (hl : hasLinuxTok b = true) : inferPlatformTokens b = some Platform.linux := by
  simp [inferPlatformTokens, hm, hl]

/-- The Windows test yields win32 only when neither later test matches. -/
theorem inferPlatformTokens_win (b : Str) (hm : hasMacTok b = false)
    (hl : hasLinuxTok b = false) (hw : hasWinTok b = true) :
    inferPlatformTokens b = some Platform.win32 := by
  simp [inferPlatformTokens, hm, hl, hw]

/-- No platform token: no platform is inferred. -/
theorem inferPlatformTokens_none (b : Str) (hm : hasMacTok b = false)
    (hl : hasLinuxTok b = false) (hw : hasWinTok b = false) :
    inferPlatformTokens b = none := by
  simp [inferPlatformTokens, hm, hl, hw]

/-- With no suffix and no token, parseElectronApp fails with the
unsupported-platform error naming the lowercased base name. -/
theorem parse_unsupportedPlatform (fs : Fsys) (p : FsPath)
    (h1 : pathEndsWith p (str ".app") = false) (h2 : pathEndsWith p (str ".exe") = false)
    (h3 : inferPlatformTokens (lowerB (basename p)) = none) :
    parseElectronApp fs p = .error (.unsupportedPlatform (lowerB (basename p))) := by
  have hc := classify_tokens p h1 h2
  simp [parseElectronApp, hc, h3]

/-- C9: for every filesystem and every build path with no .app or .exe
suffix whose lowercased base name passes the Linux token test and not the
macOS one, parseElectronApp throws Platform not supported: no Linux build
is ever parsed successfully and no ElectronAppInfo is produced. -/
theorem c9_linux_never_parsed (fs : Fsys) (p : FsPath)
    (h1 : pathEndsWith p (str ".app") = false) (h2 : pathEndsWith p (str ".exe") = false)
    (h3 : hasLinuxTok (lowerB (basename p)) = true)
    (h4 : hasMacTok (lowerB (basename p)) = false) :
    parseElectronApp fs p = .error (.notSupported .linux) := by
  have hc := classify_tokens p h1 h2
  have hp := inferPlatformTokens_linux (lowerB (basename p)) h4 h3
  simp [parseElectronApp, hc, hp]

/-- Witness for C9 at a concrete Linux build directory. -/
theorem c9_witness :
    parseElectronApp emptyFsys ⟨true, [str "out", str "app-linux-x64"]⟩ =
      .error (.notSupported .linux) :=
  c9_linux_never_parsed emptyFsys ⟨true, [str "out", str "app-linux-x64"]⟩
    (by decide) (by decide) (by decide) (by decide)

/-- C10: the token tests run Windows first, Linux second, macOS last,
each overwriting the previous match, so the last-checked matching set
classifies the name: macOS tokens override Linux tokens, which override
Windows tokens; and every name containing darwin also satisfies the
Windows substring test for win, yet is inferred as macOS. -/
theorem c10_last_match_wins : ∀ b : Str,
    (hasMacTok b = true → inferPlatformTokens b = some Platform.darwin) ∧
    (hasMacTok b = false → hasLinuxTok b = true →
      inferPlatformTokens b = some Platform.linux) ∧
    (hasMacTok b = false → hasLinuxTok b = false → hasWinTok b = true →
      inferPlatformTokens b = some Platform.win32) ∧
    (substrB (str "darwin") b = true →
      hasWinTok b = true ∧ inferPlatformTokens b = some Platform.darwin) := by
  intro b
  refine ⟨inferPlatformTokens_mac b, inferPlatformTokens_linux b,
    inferPlatformTokens_win b, fun hd => ?_⟩
  have hw : hasWinTok b = true := substr_win_of_darwin b hd
  have hm : hasMacTok b = true := by simp [hasMacTok, hd]
  exact ⟨hw, inferPlatformTokens_mac b hm⟩

/-- Witness for C10 on a concrete darwin-named directory. -/
theorem c10_witness :
    hasWinTok (str "app-darwin") = true ∧
      inferPlatformTokens (str "app-darwin") = some Platform.darwin :=
  (c10_last_match_wins (str "app-darwin")).2.2.2 (by decide)

/-- Joining a component never changes absoluteness. -/
theorem joinStr_abs (p : FsPath) (s : Str) : (joinStr p s).abs = p.abs := rfl

/-- Taking the parent never changes absoluteness. -/
theorem dirname_abs (p : FsPath) : (dirname p).abs = p.abs := rfl

/-- The suffix phase leaves absoluteness unchanged. -/
theorem suffixStep_fst_abs (p : FsPath) : (suffixStep p).1.abs = p.abs := by
  unfold suffixStep
  split <;> dsimp only <;> split <;> rfl

/-- Classification leaves absoluteness of the build directory unchanged. -/
theorem classify_fst_abs (p : FsPath) : (classify p).1.abs = p.abs := by
  have hs := suffixStep_fst_abs p
  rcases h : suffixStep p with ⟨d, pl⟩
  rw [h] at hs
  dsimp only at hs
  cases pl <;> simp [classify, h] <;> exact hs

/-- The arm64 test is checked last and wins whenever it matches. -/
theorem inferArch_arm64 (b : Str) (h : substrB (str "arm64") b = true) :
    inferArch b = some Arch.arm64 := by
  simp [inferArch, h]

/-- The x64 test wins when the later arm64 test does not match. -/
theorem inferArch_x64 (b : Str) (ha : substrB (str "arm64") b = false)
    (h : substrB (str "x64") b = true) : inferArch b = some Arch.x64 := by
  simp [inferArch, ha, h]

/-- The x32/i386 test yields x32 when no later test matches. -/
theorem inferArch_x32 (b : Str) (ha : substrB (str "arm64") b = false)
    (hx : substrB (str "x64") b = false)
    (h : substrB (str "x32") b = true ∨ substrB (str "i386") b = true) :
    inferArch b = some Arch.x32 := by
  rcases h with h | h <;> simp [inferArch, ha, hx, h]

/-- No architecture token: no architecture is inferred. -/
theorem inferArch_noTok (b : Str) (ha : substrB (str "arm64") b = false)
    (hx : substrB (str "x64") b = false) (h3 : substrB (str "x32") b = false)
    (hi : substrB (str "i386") b = false) : inferArch b = none := by
  simp [inferArch, ha, hx, h3, hi]

/-- The head of a list is a member. -/
theorem head?_mem_self {α : Type} {l : List α} {a : α} (h : l.head? = some a) : a ∈ l := by
  cases l with
  | nil => cases h
  | cons c cs =>
    rw [List.head?_cons, Option.some.injEq] at h
    subst h
    exact List.mem_cons_self c cs

/-- Postcondition of a successful resolveManifest: the asar flag is the
membership of app.asar in the resources listing, and the main path and
manifest come from the archive when packed, from app/package.json when
not; the main path stays under the resources directory. -/
theorem resolveManifest_ok (fs : Fsys) (rd : FsPath) (r : Bool × FsPath × Manifest)
    (h : resolveManifest fs rd = .ok r) :
    (∃ rl, fs.readdir rd = some rl ∧ r.1 = rl.contains (str "app.asar")) ∧
    r.2.1.abs = rd.abs ∧
    ((r.1 = true ∧ fs.asarManifest (joinStr rd (str "app.asar")) = some r.2.2 ∧
       r.2.1 = joinStr (joinStr rd (str "app.asar")) r.2.2.main) ∨
     (r.1 = false ∧
       fs.readManifest (joinStr (joinStr rd (str "app")) (str "package.json")) = some r.2.2 ∧
       r.2.1 = joinStr (joinStr rd (str "app")) r.2.2.main)) := by
  unfold resolveManifest at h
  cases hrd : fs.readdir rd with
  | none => rw [hrd] at h; simp [ofOpt, Bind.bind, Except.bind] at h
  | some rl =>
    rw [hrd] at h
    simp only [ofOpt, Bind.bind, Except.bind] at h
    cases hc : rl.contains (str "app.asar") with
    | true =>
      rw [hc] at h
      simp only [if_true] at h
      cases ham : fs.asarManifest (joinStr rd (str "app.asar")) with
      | none => rw [ham] at h; simp [ofOpt] at h
      | some pj =>
        rw [ham] at h
        simp only [ofOpt, Except.ok.injEq] at h
        subst h
        exact ⟨⟨rl, rfl, hc.symm⟩, rfl, Or.inl ⟨rfl, rfl, rfl⟩⟩
    | false =>
      rw [hc] at h
      simp only [Bool.false_eq_true, if_false] at h
      cases hman : fs.readManifest (joinStr (joinStr rd (str "app")) (str "package.json")) with
      | none => rw [hman] at h; simp [ofOpt] at h
      | some pj =>
        rw [hman] at h
        simp only [ofOpt, Except.ok.injEq] at h
        subst h
        exact ⟨⟨rl, rfl, hc.symm⟩, rfl, Or.inr ⟨rfl, rfl, rfl⟩⟩

/-- Postcondition of a successful parseElectronApp: all returned paths
keep the absoluteness of the input path; the architecture field is the
token inference on the effective base name; the platform is never
linux; the executable is a listed entry of a directory the filesystem
can list; the asar flag is the membership test of the resources
listing; and the main path and name come from the manifest, joined
under the archive when packed and under the loose app directory when
not. -/
theorem parse_ok_spec (fs : Fsys) (p : FsPath) (info : ElectronAppInfo)
    (h : parseElectronApp fs p = .ok info) :
    info.executable.abs = p.abs ∧ info.main.abs = p.abs ∧
    info.resourcesDir.abs = p.abs ∧
    info.arch = inferArch (lowerB (basename (classify p).1)) ∧
    info.platform ≠ Platform.linux ∧
    (∃ d entry l, fs.readdir d = some l ∧ entry ∈ l ∧ info.executable = joinStr d entry) ∧
    (∃ rl, fs.readdir info.resourcesDir = some rl ∧
      info.asar = rl.contains (str "app.asar")) ∧
    (∃ pj : Manifest, info.name = pj.name ∧
      ((info.asar = true ∧
        fs.asarManifest (joinStr info.resourcesDir (str "app.asar")) = some pj ∧
        info.main = joinStr (joinStr info.resourcesDir (str "app.asar")) pj.main) ∨
       (info.asar = false ∧
        fs.readManifest
          (joinStr (joinStr info.resourcesDir (str "app")) (str "package.json")) = some pj ∧
        info.main = joinStr (joinStr info.resourcesDir (str "app")) pj.main))) := by
  have habs := classify_fst_abs p
  unfold parseElectronApp at h
  dsimp only at h
  rcases hcl : (classify p).2 with _ | plat
  · rw [hcl] at h; dsimp only at h; cases h
  · rw [hcl] at h
    dsimp only at h
    cases plat with
    | linux => dsimp only at h; cases h
    | darwin =>
      dsimp only [Bind.bind, Except.bind] at h
      cases hrd : fs.readdir (classify p).1 with
      | none => rw [hrd] at h; simp [ofOpt] at h
      | some list =>
        rw [hrd] at h
        simp only [ofOpt, Bind.bind, Except.bind] at h
        cases hfind : list.find? (fun f => endsWithB f (str ".app")) with
        | none => rw [hfind] at h; simp [ofOpt] at h
        | some appBundle =>
          rw [hfind] at h
          simp only [ofOpt, Bind.bind, Except.bind] at h
          cases hrd2 : fs.readdir (joinStr (joinStr (joinStr (classify p).1 appBundle)
              (str "Contents")) (str "MacOS")) with
          | none => rw [hrd2] at h; simp [ofOpt] at h
          | some macList =>
            rw [hrd2] at h
            simp only [ofOpt, Bind.bind, Except.bind] at h
            cases hhd : macList.head? with
            | none => rw [hhd] at h; simp [ofOpt] at h
            | some appName =>
              rw [hhd] at h
              simp only [ofOpt, Bind.bind, Except.bind] at h
              cases hres : resolveManifest fs (joinStr (joinStr (joinStr (classify p).1
                  appBundle) (str "Contents")) (str "Resources")) with
              | error e => rw [hres] at h; simp [ofOpt] at h
              | ok r =>
                rw [hres] at h
                simp only [Except.ok.injEq] at h
                subst h
                obtain ⟨⟨rl, hrl, hflag⟩, hmabs, hdich⟩ := resolveManifest_ok fs _ r hres
                exact ⟨habs, hmabs.trans habs, habs, rfl, by simp,
                  ⟨joinStr (joinStr (joinStr (classify p).1 appBundle) (str "Contents"))
                      (str "MacOS"), appName, macList, hrd2, head?_mem_self hhd, rfl⟩,
                  ⟨rl, hrl, hflag⟩, ⟨r.2.2, rfl, hdich⟩⟩
    | win32 =>
      dsimp only [Bind.bind, Except.bind] at h
      cases hrd : fs.readdir (classify p).1 with
      | none => rw [hrd] at h; simp [ofOpt] at h
      | some list =>
        rw [hrd] at h
        simp only [ofOpt, Bind.bind, Except.bind] at h
        cases hfind : list.find? (fun f => endsWithB f (str ".exe")) with
        | none => rw [hfind] at h; simp [ofOpt] at h
        | some exe =>
          rw [hfind] at h
          simp only [ofOpt, Bind.bind, Except.bind] at h
          cases hres : resolveManifest fs (joinStr (classify p).1 (str "resources")) with
          | error e => rw [hres] at h; simp [ofOpt] at h
          | ok r =>
            rw [hres] at h
            simp only [Except.ok.injEq] at h
            subst h
            obtain ⟨⟨rl, hrl, hflag⟩, hmabs, hdich⟩ := resolveManifest_ok fs _ r hres
            exact ⟨habs, hmabs.trans habs, habs, rfl, by simp,
              ⟨(classify p).1, exe, list, hrd, List.mem_of_find?_eq_some hfind, rfl⟩,
              ⟨rl, hrl, hflag⟩, ⟨r.2.2, rfl, hdich⟩⟩

/-- C1 (amended): platform inference order of parseElectronApp. A path
ending in .app implies macOS with the effective build directory its
parent (unless that parent itself ends in .exe, which the later suffix
test then overrides); a path ending in .exe implies Windows with the
parent; otherwise the lowercased base name goes through substring tests
in order Windows (win), Linux (linux/ubuntu/debian), macOS
(darwin/mac/osx), a later match overriding an earlier one (last match
wins; the tests are not disjoint). A name matching exactly one
platform test infers that platform; no match fails with the
unsupported-platform error naming the base name. Architecture uses the
analogous x32/i386, x64, arm64 tests with later matches overriding; no
match is non-fatal and leaves the architecture field unset on any
successful parse. -/
theorem c1_platform_inference :
    (∀ p : FsPath, pathEndsWith p (str ".app") = true →
      pathEndsWith (dirname p) (str ".exe") = false →
      classify p = (dirname p, some Platform.darwin)) ∧
    (∀ p : FsPath, pathEndsWith p (str ".app") = false →
      pathEndsWith p (str ".exe") = true →
      classify p = (dirname p, some Platform.win32)) ∧
    (∀ p : FsPath, pathEndsWith p (str ".app") = false →
      pathEndsWith p (str ".exe") = false →
      classify p = (p, inferPlatformTokens (lowerB (basename p)))) ∧
    (∀ b : Str, hasMacTok b = true → inferPlatformTokens b = some Platform.darwin) ∧
    (∀ b : Str, hasMacTok b = false → hasLinuxTok b = true →
      inferPlatformTokens b = some Platform.linux) ∧
    (∀ b : Str, hasMacTok b = false → hasLinuxTok b = false → hasWinTok b = true →
      inferPlatformTokens b = some Platform.win32) ∧
    (∀ (fs : Fsys) (p : FsPath), pathEndsWith p (str ".app") = false →
      pathEndsWith p (str ".exe") = false →
      hasMacTok (lowerB (basename p)) = false →
      hasLinuxTok (lowerB (basename p)) = false →
      hasWinTok (lowerB (basename p)) = false →
      parseElectronApp fs p = .error (.unsupportedPlatform (lowerB (basename p)))) ∧
    (∀ b : Str, substrB (str "arm64") b = true → inferArch b = some Arch.arm64) ∧
    (∀ b : Str, substrB (str "arm64") b = false → substrB (str "x64") b = true →
      inferArch b = some Arch.x64) ∧
    (∀ b : Str, substrB (str "arm64") b = false → substrB (str "x64") b = false →
      (substrB (str "x32") b = true ∨ substrB (str "i386") b = true) →
      inferArch b = some Arch.x32) ∧
    (∀ b : Str, substrB (str "arm64") b = false → substrB (str "x64") b = false →
      substrB (str "x32") b = false → substrB (str "i386") b = false →
      inferArch b = none) ∧
    (∀ (fs : Fsys) (p : FsPath) (info : ElectronAppInfo),
      parseElectronApp fs p = .ok info →
      info.arch = inferArch (lowerB (basename (classify p).1))) := by
  refine ⟨classify_app, classify_exe, classify_tokens, inferPlatformTokens_mac,
    inferPlatformTokens_linux, inferPlatformTokens_win, ?_, inferArch_arm64,
    inferArch_x64, inferArch_x32, inferArch_noTok, ?_⟩
  · intro fs p h1 h2 hm hl hw
    exact parse_unsupportedPlatform fs p h1 h2
      (inferPlatformTokens_none (lowerB (basename p)) hm hl hw)
  · intro fs p info h
    exact (parse_ok_spec fs p info h).2.2.2.1

/-- Counterexample for C1 as stated: on the base name myapp-darwin-arm64
the token tests are not disjoint (both the Windows and the macOS test
match) and first-match-wins would infer Windows, while parseElectronApp
infers macOS; the full parse of the macOS fixture, whose base name this
is, indeed returns platform darwin. -/
theorem c1_counterexample :
    specInferPlatformFirstMatch (str "myapp-darwin-arm64") = some Platform.win32 ∧
    inferPlatformTokens (str "myapp-darwin-arm64") = some Platform.darwin ∧
    hasWinTok (str "myapp-darwin-arm64") = true ∧
    hasMacTok (str "myapp-darwin-arm64") = true ∧
    parseElectronApp macFsEx macDirEx = .ok macInfoEx ∧
    macInfoEx.platform = Platform.darwin := by
  decide

/-- Witness for C1 at concrete inputs: an .app path, a Linux token name,
a token-free name that fails, and a name without architecture tokens. -/
theorem c1_witness :
    classify ⟨true, [str "out", str "a-dir", str "b.app"]⟩ =
      (⟨true, [str "out", str "a-dir"]⟩, some Platform.darwin) ∧
    inferPlatformTokens (str "app-linux") = some Platform.linux ∧
    parseElectronApp emptyFsys ⟨true, [str "foo"]⟩ =
      .error (.unsupportedPlatform (str "foo")) ∧
    inferArch (str "app-darwin") = none := by
  obtain ⟨h1, h2, h3, h4, h5, h6, h7, h8, h9, h10, h11, h12⟩ := c1_platform_inference
  refine ⟨h1 _ (by decide) (by decide), h5 _ (by decide) (by decide), ?_, ?_⟩
  · have := h7 emptyFsys ⟨true, [str "foo"]⟩ (by decide) (by decide)
      (by decide) (by decide) (by decide)
    exact this
  · exact h11 _ (by decide) (by decide) (by decide) (by decide)

/-- C2: on any successful parse, when the bundle is packed the entry
module is the manifest's main field joined onto the archive path
<resourcesDir>/app.asar, and when unpacked it is the main field joined
onto <resourcesDir>/app; in both cases the returned name is the
manifest's name field. -/
theorem c2_entry_module (fs : Fsys) (p : FsPath) (info : ElectronAppInfo)
    (pj : Manifest) (h : parseElectronApp fs p = .ok info) :
    (info.asar = true →
      fs.asarManifest (joinStr info.resourcesDir (str "app.asar")) = some pj →
      info.main = joinStr (joinStr info.resourcesDir (str "app.asar")) pj.main ∧
      info.name = pj.name) ∧
    (info.asar = false →
      fs.readManifest
        (joinStr (joinStr info.resourcesDir (str "app")) (str "package.json")) = some pj →
      info.main = joinStr (joinStr info.resourcesDir (str "app")) pj.main ∧
      info.name = pj.name) := by
  obtain ⟨-, -, -, -, -, -, -, pj', hname, hdich⟩ := parse_ok_spec fs p info h
  constructor
  · intro ha hm
    rcases hdich with ⟨-, hman, hmain⟩ | ⟨hflag, -, -⟩
    · rw [hman, Option.some.injEq] at hm
      subst hm
      exact ⟨hmain, hname⟩
    · rw [hflag] at ha; cases ha
  · intro ha hm
    rcases hdich with ⟨hflag, -, -⟩ | ⟨-, hman, hmain⟩
    · rw [hflag] at ha; cases ha
    · rw [hman, Option.some.injEq] at hm
      subst hm
      exact ⟨hmain, hname⟩

/-- Witness for C2 on the packed Windows fixture and the unpacked macOS
fixture, both with manifest main index.js: the packed entry module is
<archivePath>/index.js with the asar flag true, the unpacked one is
<resourcesDir>/app/index.js with the flag false, and both names equal
the manifest name. -/
theorem c2_witness :
    winInfoEx.asar = true ∧
    winInfoEx.main = joinStr winAsarEx (str "index.js") ∧
    winInfoEx.name = str "myapp" ∧
    macInfoEx.asar = false ∧
    macInfoEx.main = joinStr (joinStr macResEx (str "app")) (str "index.js") ∧
    macInfoEx.name = str "myapp" := by
  have hw := (c2_entry_module winFsEx winDirEx winInfoEx pjEx (by decide)).1
    (by decide) (by decide)
  have hm := (c2_entry_module macFsEx macDirEx macInfoEx pjEx (by decide)).2
    (by decide) (by decide)
  exact ⟨by decide, hw.1, hw.2, by decide, hm.1, hm.2⟩

/-- C8 (amended): for every build directory given by an absolute path and
accepted by parseElectronApp, the returned executable and entry-module
paths are absolute; the executable is a listed entry of a directory the
filesystem can list, and the entry module is either the archive-internal
virtual path <resourcesDir>/app.asar/<entry> (packed) or the on-disk
path <resourcesDir>/app/<entry> (unpacked). -/
theorem c8_paths_absolute (fs : Fsys) (p : FsPath) (info : ElectronAppInfo)
    (habs : p.abs = true) (h : parseElectronApp fs p = .ok info) :
    info.executable.abs = true ∧ info.main.abs = true ∧
    (∃ d entry l, fs.readdir d = some l ∧ entry ∈ l ∧
      info.executable = joinStr d entry) ∧
    (∃ pj : Manifest,
      (info.asar = true ∧
        info.main = joinStr (joinStr info.resourcesDir (str "app.asar")) pj.main) ∨
      (info.asar = false ∧
        info.main = joinStr (joinStr info.resourcesDir (str "app")) pj.main)) := by
  obtain ⟨he, hm, -, -, -, hexec, -, pj, -, hdich⟩ := parse_ok_spec fs p info h
  rw [habs] at he hm
  refine ⟨he, hm, hexec, pj, ?_⟩
  rcases hdich with ⟨ha, -, hmain⟩ | ⟨ha, -, hmain⟩
  · exact Or.inl ⟨ha, hmain⟩
  · exact Or.inr ⟨ha, hmain⟩

/-- Counterexample for C8 as stated: the same packed bundle under a
relative build directory parses successfully but returns relative
executable and entry-module paths, so the paths are not always
absolute. -/
theorem c8_counterexample :
    parseElectronApp relFsEx relDirEx = .ok relInfoEx ∧
    relInfoEx.executable.abs = false ∧ relInfoEx.main.abs = false := by
  decide

/-- Witness for C8 on the absolute packed Windows fixture. -/
theorem c8_witness :
    winInfoEx.executable.abs = true ∧ winInfoEx.main.abs = true :=
  let h := c8_paths_absolute winFsEx winDirEx winInfoEx (by decide) (by decide)
  ⟨h.1, h.2.1⟩

/-- Head of an insertion: the stable-descending insertion only changes
the head when the inserted key is strictly greater. -/
theorem insertDesc_head (x : DirEntry) (acc : List DirEntry) :
    (insertDesc x acc).head? = some (match acc.head? with
      | none => x
      | some y => if x.mtimeMs > y.mtimeMs then x else y) := by
  cases acc with
  | nil => rfl
  | cons y ys =>
    by_cases h : x.mtimeMs > y.mtimeMs <;> simp [insertDesc, h]

/-- Head of the insertion-sort fold, as a running first-maximum. -/
theorem foldl_insertDesc_head (l : List DirEntry) :
    ∀ acc : List DirEntry,
      (l.foldl (fun a x => insertDesc x a) acc).head? = firstMaxAux acc.head? l := by
  induction l with
  | nil => intro acc; rfl
  | cons x xs ih =>
    intro acc
    rw [List.foldl_cons, ih (insertDesc x acc), insertDesc_head]
    cases hacc : acc.head? with
    | none => rfl
    | some y => by_cases h : x.mtimeMs > y.mtimeMs <;> simp [firstMaxAux, h]

/-- Head of the stable descending sort is the first maximum. -/
theorem sortDesc_head (l : List DirEntry) : (sortDesc l).head? = firstMax l :=
  foldl_insertDesc_head l []

/-- Running first-maximum with a seeded best: the result bounds the seed
and every element, and is either the seed itself or an element strictly
greater than the seed and than everything listed before it. -/
theorem firstMaxAux_some_spec (l : List DirEntry) : ∀ y : DirEntry,
    ∃ e, firstMaxAux (some y) l = some e ∧ y.mtimeMs ≤ e.mtimeMs ∧
      (∀ x ∈ l, x.mtimeMs ≤ e.mtimeMs) ∧
      (e = y ∨ ∃ l₁ l₂, l = l₁ ++ e :: l₂ ∧ y.mtimeMs < e.mtimeMs ∧
        ∀ x ∈ l₁, x.mtimeMs < e.mtimeMs) := by
  induction l with
  | nil => intro y; exact ⟨y, rfl, le_refl _, by simp, Or.inl rfl⟩
  | cons x xs ih =>
    intro y
    by_cases h : x.mtimeMs > y.mtimeMs
    · obtain ⟨e, he, hy, hbound, hpos⟩ := ih x
      refine ⟨e, by simpa [firstMaxAux, h] using he,
        le_of_lt (lt_of_lt_of_le h hy), ?_, ?_⟩
      · intro z hz
        rcases List.mem_cons.mp hz with rfl | hz
        · exact hy
        · exact hbound z hz
      · rcases hpos with rfl | ⟨l₁, l₂, hl, hlt, hall⟩
        · exact Or.inr ⟨[], xs, rfl, h, by simp⟩
        · refine Or.inr ⟨x :: l₁, l₂, by rw [hl]; rfl, lt_trans h hlt, ?_⟩
          intro z hz
          rcases List.mem_cons.mp hz with rfl | hz
          · exact hlt
          · exact hall z hz
    · obtain ⟨e, he, hy, hbound, hpos⟩ := ih y
      refine ⟨e, by simpa [firstMaxAux, h] using he, hy, ?_, ?_⟩
      · intro z hz
        rcases List.mem_cons.mp hz with rfl | hz
        · exact le_trans (le_of_not_lt h) hy
        · exact hbound z hz
      · rcases hpos with rfl | ⟨l₁, l₂, hl, hlt, hall⟩
        · exact Or.inl rfl
        · refine Or.inr ⟨x :: l₁, l₂, by rw [hl]; rfl, hlt, ?_⟩
          intro z hz
          rcases List.mem_cons.mp hz with rfl | hz
          · exact lt_of_le_of_lt (le_of_not_lt h) hlt
          · exact hall z hz

/-- The first maximum of a nonempty list: it splits the list so that
everything before it is strictly smaller and everything is bounded by
it. -/
theorem firstMax_spec (l : List DirEntry) (hne : l ≠ []) :
    ∃ e l₁ l₂, firstMax l = some e ∧ l = l₁ ++ e :: l₂ ∧
      (∀ x ∈ l₁, x.mtimeMs < e.mtimeMs) ∧ (∀ x ∈ l, x.mtimeMs ≤ e.mtimeMs) := by
  cases l with
  | nil => exact absurd rfl hne
  | cons x xs =>
    obtain ⟨e, he, hy, hbound, hpos⟩ := firstMaxAux_some_spec xs x
    have hfm : firstMax (x :: xs) = some e := by simpa [firstMax, firstMaxAux] using he
    rcases hpos with rfl | ⟨l₁, l₂, hl, hlt, hall⟩
    · refine ⟨e, [], xs, hfm, rfl, by simp, ?_⟩
      intro z hz
      rcases List.mem_cons.mp hz with rfl | hz
      · exact le_refl _
      · exact hbound z hz
    · refine ⟨e, x :: l₁, l₂, hfm, by rw [hl]; rfl, ?_, ?_⟩
      · intro z hz
        rcases List.mem_cons.mp hz with rfl | hz
        · exact hlt
        · exact hall z hz
      · intro z hz
        rcases List.mem_cons.mp hz with rfl | hz
        · exact le_of_lt hlt
        · exact hbound z hz

/-- The first maximum exists exactly on nonempty lists. -/
theorem firstMax_eq_none_iff (l : List DirEntry) : firstMax l = none ↔ l = [] := by
  cases l with
  | nil => simp [firstMax, firstMaxAux]
  | cons x xs =>
    obtain ⟨e, he, -, -, -⟩ := firstMaxAux_some_spec xs x
    simp [firstMax, firstMaxAux, he]

/-- C3 (amended): for a listing with at least one valid candidate
(directory whose dash-delimited lowercased name has a platform-token
part), findLatestBuild returns the out-directory join of a valid
candidate with maximal modification time; among candidates sharing the
maximal time the one listed first (for a listing sorted ascending, the
lexicographically first) is chosen, deterministically. -/
theorem c3_latest_build (outDir : FsPath) (entries : List DirEntry)
    (hne : entries.filter isValidBuild ≠ []) :
    ∃ e l₁ l₂, findLatestBuild outDir (some entries) = .ok (joinStr outDir e.name) ∧
      entries.filter isValidBuild = l₁ ++ e :: l₂ ∧
      isValidBuild e = true ∧
      (∀ x ∈ l₁, x.mtimeMs < e.mtimeMs) ∧
      (∀ x ∈ entries.filter isValidBuild, x.mtimeMs ≤ e.mtimeMs) := by
  obtain ⟨e, l₁, l₂, hfm, hdecomp, hlt, hbound⟩ :=
    firstMax_spec (entries.filter isValidBuild) hne
  have hok : findLatestBuild outDir (some entries) = .ok (joinStr outDir e.name) := by
    simp [findLatestBuild, sortDesc_head, hfm]
  have hmem : e ∈ entries.filter isValidBuild := by
    rw [hdecomp]
    exact List.mem_append_right _ (List.mem_cons_self _ _)
  exact ⟨e, l₁, l₂, hok, hdecomp, (List.mem_filter.mp hmem).2, hlt, hbound⟩

/-- Counterexample for C3 as stated: two valid candidates with equal
modification times; the spec's tie rule (lexicographically last) picks
b-linux, but findLatestBuild returns a-linux, the one listed first. -/
theorem c3_counterexample :
    specLatestChoice [entryA, entryB] = some entryB ∧
    entryB.name = str "b-linux" ∧
    findLatestBuild outDirEx (some [entryA, entryB]) =
      .ok (joinStr outDirEx (str "a-linux")) ∧
    joinStr outDirEx (str "a-linux") ≠ joinStr outDirEx (str "b-linux") := by
  decide

/-- Witness for C3 on a listing with an invalid newer entry and two valid
ones. -/
theorem c3_witness :
    ∃ e l₁ l₂,
      findLatestBuild outDirEx (some [entryJunk, entryA, entryB]) =
        .ok (joinStr outDirEx e.name) ∧
      [entryJunk, entryA, entryB].filter isValidBuild = l₁ ++ e :: l₂ ∧
      isValidBuild e = true ∧
      (∀ x ∈ l₁, x.mtimeMs < e.mtimeMs) ∧
      (∀ x ∈ [entryJunk, entryA, entryB].filter isValidBuild,
        x.mtimeMs ≤ e.mtimeMs) :=
  c3_latest_build outDirEx [entryJunk, entryA, entryB] (by decide)

/-- C5 (amended): findLatestBuild fails with the No build found error
exactly when the out directory exists and zero entries qualify under
the validity predicate; a missing out directory instead surfaces the
filesystem error of readdirSync. -/
theorem c5_noBuildFound (outDir : FsPath) :
    (∀ listing : Option (List DirEntry),
      findLatestBuild outDir listing = .error .noBuildFound ↔
      ∃ l, listing = some l ∧ l.filter isValidBuild = []) ∧
    findLatestBuild outDir none = .error .fsError := by
  refine ⟨?_, rfl⟩
  intro listing
  constructor
  · intro h
    cases listing with
    | none => simp [findLatestBuild] at h
    | some l =>
      refine ⟨l, rfl, ?_⟩
      by_contra hne
      obtain ⟨e, l₁, l₂, hfm, -, -, -⟩ := firstMax_spec (l.filter isValidBuild) hne
      simp [findLatestBuild, sortDesc_head, hfm] at h
  · rintro ⟨l, rfl, hfilter⟩
    simp [findLatestBuild, sortDesc_head, hfilter, firstMax, firstMaxAux]

/-- Counterexample for C5 as stated: a nonexistent out directory fails
with the filesystem error, not with the No build found error. -/
theorem c5_counterexample :
    findLatestBuild outDirEx none = .error .fsError ∧
    (Except.error BuildError.fsError : Except BuildError FsPath) ≠
      .error .noBuildFound := by
  decide

/-- Witness for C5 on a listing whose only entry lacks a platform token. -/
theorem c5_witness :
    findLatestBuild outDirEx (some [entryJunk]) = .error .noBuildFound :=
  ((c5_noBuildFound outDirEx).1 (some [entryJunk])).mpr ⟨[entryJunk], rfl, by decide⟩

/-- The polling loop returns after evaluation T exactly when the probe is
false strictly before T and true at T, sleeping 100 ms between
consecutive evaluations. -/
theorem electronWaitForFunction_done {ε : Type} (probe : Nat → Except ε Bool) (T : Nat)
    (hfalse : ∀ j, j < T → probe j = .ok false) (htrue : probe T = .ok true) :
    ∀ fuel k, k ≤ T → T < k + fuel →
      electronWaitForFunction probe fuel k = .done (T + 1) (100 * T) := by
  intro fuel
  induction fuel with
  | zero => intro k hk hT; omega
  | succ f ih =>
    intro k hk hT
    rcases eq_or_lt_of_le hk with rfl | hlt
    · simp [electronWaitForFunction, htrue]
    · have hk1 : probe k = .ok false := hfalse k hlt
      simp only [electronWaitForFunction, hk1]
      exact ih (k + 1) hlt (by omega)

/-- The polling loop propagates a probe error raised at evaluation T
immediately: with the probe false strictly before T and erring at T,
the loop stops as failed after exactly T + 1 evaluations and 100 T ms
of sleep, whatever the probe does at later indices. -/
theorem electronWaitForFunction_failed {ε : Type} (probe : Nat → Except ε Bool)
    (T : Nat) (e : ε) (hfalse : ∀ j, j < T → probe j = .ok false)
    (herr : probe T = .error e) :
    ∀ fuel k, k ≤ T → T < k + fuel →
      electronWaitForFunction probe fuel k = .failed e (T + 1) (100 * T) := by
  intro fuel
  induction fuel with
  | zero => intro k hk hT; omega
  | succ f ih =>
    intro k hk hT
    rcases eq_or_lt_of_le hk with rfl | hlt
    · simp [electronWaitForFunction, herr]
    · have hk1 : probe k = .ok false := hfalse k hlt
      simp only [electronWaitForFunction, hk1]
      exact ih (k + 1) hlt (by omega)

/-- C4: the polling synchronizer evaluates the probe repeatedly with a
fixed 100 ms suspension between evaluations; a probe first true at the
N-th evaluation (index T = N - 1) makes it return after exactly N
evaluations having slept 100 (N - 1) ms; and a probe that raises an
error at any evaluation (index T, false before it) makes that error
propagate immediately after exactly T + 1 evaluations, with no further
evaluation (the conclusion is fixed by the probe values up to T alone). -/
theorem c4_waitForCondition (ε : Type) :
    (∀ (probe : Nat → Except ε Bool) (T fuel : Nat),
      (∀ j, j < T → probe j = .ok false) → probe T = .ok true → T < fuel →
      waitForCondition probe fuel = .done (T + 1) (100 * T)) ∧
    (∀ (probe : Nat → Except ε Bool) (e : ε) (T fuel : Nat),
      (∀ j, j < T → probe j = .ok false) → probe T = .error e → T < fuel →
      waitForCondition probe fuel = .failed e (T + 1) (100 * T)) := by
  constructor
  · intro probe T fuel hfalse htrue hT
    exact electronWaitForFunction_done probe T hfalse htrue fuel 0 (Nat.zero_le _)
      (by omega)
  · intro probe e T fuel hfalse herr hT
    exact electronWaitForFunction_failed probe T e hfalse herr fuel 0 (Nat.zero_le _)
      (by omega)

/-- Witness for C4: a probe first true at evaluation index 2 finishes
after 3 evaluations and 200 ms of sleep; a probe erring at index 1
propagates the error after 2 evaluations and 100 ms of sleep; a probe
erring already at index 0 propagates it after 1 evaluation with no
sleep. -/
theorem c4_witness :
    waitForCondition (probeTrueAt 2) 5 = .done 3 200 ∧
    waitForCondition probeErrAt1 5 = .failed 9 2 100 ∧
    waitForCondition probeErrAt0 5 = .failed 7 1 0 := by
  refine ⟨(c4_waitForCondition Nat).1 (probeTrueAt 2) 2 5 ?_ (by decide) (by decide),
    (c4_waitForCondition Nat).2 probeErrAt1 9 1 5 ?_ (by decide) (by decide),
    (c4_waitForCondition Nat).2 probeErrAt0 7 0 5 ?_ (by decide) (by decide)⟩
  · intro j hj
    interval_cases j <;> decide
  · intro j hj
    interval_cases j
    decide
  · intro j hj
    omega

/-- C6: clickMenuItemById and getMenuItemAttribute perform the same
lookup: when the id is absent both fail with the same not-found error;
when it is present the click produces exactly one activation of the
found item and the attribute call returns the looked-up attribute
value. -/
theorem c6_menu_lookup (menu : List MenuItem) (midVal attr : Str) :
    (findInList midVal menu = none →
      clickMenuItemById menu midVal = .error (menuNotFoundMsg midVal) ∧
      getMenuItemAttribute menu midVal attr = .error (menuNotFoundMsg midVal)) ∧
    (∀ item, findInList midVal menu = some item →
      clickMenuItemById menu midVal = .ok [item.mid] ∧
      [item.mid].length = 1 ∧
      getMenuItemAttribute menu midVal attr = .ok (lookupAttr attr item.attributes)) ∧
    ((∃ e, clickMenuItemById menu midVal = .error e) ↔
      (∃ e, getMenuItemAttribute menu midVal attr = .error e)) := by
  refine ⟨?_, ?_, ?_⟩
  · intro h
    simp [clickMenuItemById, getMenuItemAttribute, h]
  · intro item h
    simp [clickMenuItemById, getMenuItemAttribute, h]
  · cases h : findInList midVal menu <;>
      simp [clickMenuItemById, getMenuItemAttribute, h]

/-- Witness for C6 on the concrete menu: a missing id fails with the
not-found error, a present id is clicked exactly once and its attribute
is returned. -/
theorem c6_witness :
    clickMenuItemById menuEx (str "zap") = .error (menuNotFoundMsg (str "zap")) ∧
    clickMenuItemById menuEx (str "open") = .ok [str "open"] ∧
    getMenuItemAttribute menuEx (str "open") (str "enabled") =
      .ok (some (str "true")) := by
  have h1 := (c6_menu_lookup menuEx (str "zap") (str "enabled")).1 (by rfl)
  have h2 := (c6_menu_lookup menuEx (str "open") (str "enabled")).2.1
    (.node (str "open") [(str "enabled", str "true")] []) (by rfl)
  exact ⟨h1.1, h2.1, h2.2.2⟩

/-- C7: ipcMainEmit invokes every handler registered for the message, in
order, each observing the argument list, and returns true exactly when
at least one handler was registered; with two registered handlers both
observe the call and the result is true; with none the call returns
false and performs no invocation (and raises nothing, being total). -/
theorem c7_ipcMainEmit (listeners : List (Str × Nat)) (message : Str) (args : List Str) :
    (ipcMainEmit listeners message args).1 =
      (handlersFor listeners message).map (fun h => (h, args)) ∧
    ((ipcMainEmit listeners message args).2 = true ↔
      handlersFor listeners message ≠ []) ∧
    (∀ hA hB : Nat, handlersFor listeners message = [hA, hB] →
      (ipcMainEmit listeners message args).2 = true ∧
      (hA, args) ∈ (ipcMainEmit listeners message args).1 ∧
      (hB, args) ∈ (ipcMainEmit listeners message args).1) ∧
    (handlersFor listeners message = [] →
      ipcMainEmit listeners message args = ([], false)) := by
  have hfst : (ipcMainEmit listeners message args).1 =
      (handlersFor listeners message).map (fun h => (h, args)) := rfl
  have hsnd : (ipcMainEmit listeners message args).2 =
      !(handlersFor listeners message).isEmpty := rfl
  have hpair : ipcMainEmit listeners message args =
      ((handlersFor listeners message).map (fun h => (h, args)),
        !(handlersFor listeners message).isEmpty) := rfl
  refine ⟨hfst, ?_, ?_, ?_⟩
  · rw [hsnd]
    cases h : handlersFor listeners message <;> simp [h]
  · intro hA hB hab
    refine ⟨by rw [hsnd, hab]; rfl, ?_, ?_⟩ <;> rw [hfst, hab] <;> simp
  · intro hemp
    rw [hpair, hemp]
    rfl

/-- Witness for C7 on the concrete listener table: the message with two
handlers returns true and both handlers observe the arguments; the
message with no handler returns false with no invocations. -/
theorem c7_witness :
    (ipcMainEmit listenersEx (str "msg") [str "x"]).2 = true ∧
    (1, [str "x"]) ∈ (ipcMainEmit listenersEx (str "msg") [str "x"]).1 ∧
    (3, [str "x"]) ∈ (ipcMainEmit listenersEx (str "msg") [str "x"]).1 ∧
    ipcMainEmit listenersEx (str "nobody") [] = ([], false) := by
  have ha := (c7_ipcMainEmit listenersEx (str "msg") [str "x"]).2.2.1 1 3 (by decide)
  have hb := (c7_ipcMainEmit listenersEx (str "nobody") []).2.2.2 (by decide)
  exact ⟨ha.1, ha.2.1, ha.2.2, hb⟩

end EPH
